import Mathlib

set_option maxRecDepth 4000

/-!
Shallow embedding of the CorgiAI fraud-detection progress/consensus subsystem.

Sources embedded:
- agents_excel.py: class MCPIntegration (update_score, get_consensus) and Config.
- backend/main.py: class ConnectionManager (connect, disconnect,
  send_progress_update, _store_pending_update, broadcast_to_all), the
  websocket_endpoint initial handshake, the batch_tasks dictionary with the
  status/progress writes performed by upload_excel_file and
  process_excel_background.

Python dictionaries are modelled as association lists that preserve insertion
order (a write to an existing key replaces the value in place, a write to a
fresh key appends at the end), matching CPython dict semantics. Scores are
modelled as rationals; Python round(x, 2) is modelled by decimal
round-half-to-even on the rational value (the two coincide at every input the
theorems below evaluate, none of which sits at a decimal half-way point).
Fallible sends are modelled by explicit outcome parameters; a Python function
that swallows exceptions becomes a total Lean function.
-/

namespace Corgi

/-- Look up a key in an insertion-ordered association list (Python d[k] / in). -/
def alookup {α β : Type} [DecidableEq α] (k : α) : List (α × β) → Option β
  | [] => none
  | (k', v) :: rest => if k' = k then some v else alookup k rest

/-- Write a key in an insertion-ordered association list (Python d[k] = v):
replace in place if present, append at the end if fresh. -/
def aupsert {α β : Type} [DecidableEq α] (k : α) (v : β) : List (α × β) → List (α × β)
  | [] => [(k, v)]
  | (k', v') :: rest => if k' = k then (k, v) :: rest else (k', v') :: aupsert k v rest

/-- Delete a key from an association list (Python del d[k]; no-op if absent,
which the embedded code never relies on). -/
def aerase {α β : Type} [DecidableEq α] (k : α) : List (α × β) → List (α × β)
  | [] => []
  | (k', v) :: rest => if k' = k then rest else (k', v) :: aerase k rest

/-- The keys of an association list are pairwise distinct (true of every list
that models a Python dict). -/
def NodupKeys {α β : Type} (l : List (α × β)) : Prop := (l.map Prod.fst).Nodup

theorem alookup_aupsert_self {α β : Type} [DecidableEq α] (k : α) (v : β)
    (l : List (α × β)) : alookup k (aupsert k v l) = some v := by
  induction l with
  | nil => simp [aupsert, alookup]
  | cons p rest ih =>
      obtain ⟨k', v'⟩ := p
      by_cases h : k' = k
      · simp [aupsert, alookup, h]
      · simp [aupsert, alookup, h, ih]

theorem alookup_aupsert_ne {α β : Type} [DecidableEq α] (k k₀ : α) (v : β)
    (l : List (α × β)) (hne : k ≠ k₀) :
    alookup k₀ (aupsert k v l) = alookup k₀ l := by
  induction l with
  | nil => simp [aupsert, alookup, hne]
  | cons p rest ih =>
      obtain ⟨k', v'⟩ := p
      by_cases h : k' = k
      · subst h
        simp [aupsert, alookup, hne]
      · simp [aupsert, alookup, h, ih]

theorem alookup_eq_none_of_not_mem {α β : Type} [DecidableEq α] (k : α)
    (l : List (α × β)) (h : k ∉ l.map Prod.fst) : alookup k l = none := by
  induction l with
  | nil => rfl
  | cons p rest ih =>
      obtain ⟨k', v'⟩ := p
      simp only [List.map_cons, List.mem_cons] at h
      push_neg at h
      have hne : ¬ (k' = k) := fun hc => h.1 hc.symm
      simp only [alookup, if_neg hne]
      exact ih h.2

theorem alookup_aerase_self {α β : Type} [DecidableEq α] (k : α)
    (l : List (α × β)) (h : NodupKeys l) : alookup k (aerase k l) = none := by
  induction l with
  | nil => rfl
  | cons p rest ih =>
      obtain ⟨k', v'⟩ := p
      unfold NodupKeys at h
      simp only [List.map_cons, List.nodup_cons] at h
      by_cases hk : k' = k
      · subst hk
        simp only [aerase, if_pos rfl]
        exact alookup_eq_none_of_not_mem _ _ h.1
      · simp only [aerase, if_neg hk, alookup, if_neg hk]
        exact ih h.2

/-! ## ScoreStore: agents_excel.py, class MCPIntegration -/

/-- Config.FRAUD_THRESHOLD = 0.7 (agents_excel.py line 23). -/
def FRAUD_THRESHOLD : ℚ := 7 / 10

/-- Config.CONSENSUS_THRESHOLD = 3 (agents_excel.py line 24). -/
def CONSENSUS_THRESHOLD : ℕ := 3

/-- One value of the inner per-agent dict written by update_score:
score, timestamp, metadata. Timestamps are abstract naturals and metadata an
abstract string; neither influences any branch of the embedded code. -/
structure VoteEntry where
  score : ℚ
  timestamp : ℕ
  metadata : String
deriving Repr, DecidableEq

/-- One element of MCPIntegration.history (the flat audit log). -/
structure HistoryEntry where
  claim_id : String
  agent : String
  score : ℚ
  timestamp : ℕ
  metadata : String
deriving Repr, DecidableEq

/-- The mutable state of MCPIntegration: self.scores (claim id to per-agent
latest-vote dict) and self.history (append-only audit list). -/
structure MCPState where
  scores : List (String × List (String × VoteEntry))
  history : List HistoryEntry
deriving Repr, DecidableEq

/-- State right after MCPIntegration.__init__. -/
def MCPState.init : MCPState := ⟨[], []⟩

/-- MCPIntegration.update_score (agents_excel.py lines 60-89). Raising
ValueError on a score outside [0,1] is caught by the method itself, which then
returns False having mutated nothing; on success it upserts the latest-vote
dict and appends one history entry, returning True. -/
def update_score (st : MCPState) (claim_id agent : String) (score : ℚ)
    (ts : ℕ) (metadata : String) : Bool × MCPState :=
  if 0 ≤ score ∧ score ≤ 1 then
    let claimScores := (alookup claim_id st.scores).getD []
    let claimScores' := aupsert agent ⟨score, ts, metadata⟩ claimScores
    (true,
      { scores := aupsert claim_id claimScores' st.scores,
        history := st.history ++ [⟨claim_id, agent, score, ts, metadata⟩] })
  else (false, st)

/-- Python round(x) on an exact value: round half to even. Python rounds the
nearest-double decimal expansion, which agrees with this on every value the
theorems below evaluate (none sits at a representation boundary). -/
def pyRound (q : ℚ) : ℤ :=
  if Int.fract q = 1 / 2 then 2 * round (q / 2) else round q

/-- Python round(x, 2). -/
def round2 (q : ℚ) : ℚ := (pyRound (q * 100) : ℚ) / 100

/-- Python max over a nonempty list (the [] case is dead code, guarded by the
caller exactly as in the source). -/
def listMax : List ℚ → ℚ
  | [] => 0
  | v :: vs => vs.foldl max v

/-- The dict returned as the second component of get_consensus. -/
structure ConsensusDetail where
  scores : List (String × ℚ)
  average_score : ℚ
  max_score : ℚ
  fraud_count : ℕ
  agent_details : List (String × VoteEntry)
deriving Repr, DecidableEq

/-- MCPIntegration.get_consensus (agents_excel.py lines 91-117). The Python
empty-dict result for an unknown claim id is modelled as none. -/
def get_consensus (st : MCPState) (claim_id : String) :
    Bool × Option ConsensusDetail :=
  match alookup claim_id st.scores with
  | none => (false, none)
  | some scores_data =>
      let simple_scores := scores_data.map (fun p => (p.1, p.2.score))
      let vals := simple_scores.map Prod.snd
      let fraud_count := (vals.filter (fun s => decide (FRAUD_THRESHOLD ≤ s))).length
      let has_consensus := decide (CONSENSUS_THRESHOLD ≤ fraud_count)
      let avg_score := if simple_scores.isEmpty then 0
        else vals.sum / (simple_scores.length : ℚ)
      let max_score := if simple_scores.isEmpty then 0 else listMax vals
      (has_consensus,
        some { scores := simple_scores
               average_score := round2 avg_score
               max_score := round2 max_score
               fraud_count := fraud_count
               agent_details := scores_data })

/-! ## NotificationHub: backend/main.py, class ConnectionManager -/

/-- The "type" field of the websocket messages built in backend/main.py. -/
inductive EventKind
  | connection_established
  | progress
  | completed
  | error
  | heartbeat
deriving Repr, DecidableEq

/-- One websocket message. Only the fields the embedded control flow reads are
kept: the type tag, the optional progress percentage and the message text. -/
structure Event where
  kind : EventKind
  percent : Option ℕ
  message : String
deriving Repr, DecidableEq

/-- The mutable state of ConnectionManager: self.active_connections (task id to
websocket, the socket itself abstracted to a numeric handle) and
self.pending_updates (task id to buffered event list). -/
structure ConnState where
  active_connections : List (String × ℕ)
  pending_updates : List (String × List Event)
deriving Repr, DecidableEq

/-- State right after ConnectionManager.__init__. -/
def ConnState.init : ConnState := ⟨[], []⟩

/-- Python l[-10:]: the last n elements of a list. -/
def lastN {α : Type} (n : ℕ) (l : List α) : List α := l.drop (l.length - n)

/-- ConnectionManager._store_pending_update (backend/main.py lines 140-149).
The entry for the task is created before the heartbeat test, exactly as in the
source, so a heartbeat can create an empty buffer entry but is never itself
appended; a non-heartbeat event is appended and the list truncated to its last
10 elements. -/
def store_pending_update (st : ConnState) (task_id : String) (e : Event) :
    ConnState :=
  let buf := (alookup task_id st.pending_updates).getD []
  if e.kind = .heartbeat then
    { st with pending_updates := aupsert task_id buf st.pending_updates }
  else
    { st with
      pending_updates := aupsert task_id (lastN 10 (buf ++ [e])) st.pending_updates }

/-- ConnectionManager.disconnect (backend/main.py lines 115-118). -/
def disconnect (st : ConnState) (task_id : String) : ConnState :=
  { st with active_connections := aerase task_id st.active_connections }

/-- What happens to one websocket send attempt: the message is delivered, or
the socket reports a non-CONNECTED client state, or send_text raises. -/
inductive SendOutcome
  | delivered
  | notConnected
  | raised
deriving Repr, DecidableEq

/-- ConnectionManager.send_progress_update (backend/main.py lines 120-138).
Returns the new state plus the list of messages actually delivered to the live
observer (empty or a singleton). Both failure branches of the source store the
event and disconnect; the method never lets the failure escape to its caller,
which the embedding reflects by being total in the outcome. -/
def send_progress_update (outcome : SendOutcome) (st : ConnState)
    (task_id : String) (e : Event) : ConnState × List Event :=
  match alookup task_id st.active_connections with
  | some _ =>
      match outcome with
      | .delivered => (st, [e])
      | _ => (disconnect (store_pending_update st task_id e) task_id, [])
  | none => (store_pending_update st task_id e, [])

/-- The replay loop inside ConnectionManager.connect: events are sent one at a
time and the loop breaks at the first raising send, dropping the remainder.
The argument ok gives the outcome of the i-th send on the fresh socket. -/
def replaySends (ok : ℕ → Bool) : ℕ → List Event → List Event
  | _, [] => []
  | i, e :: rest => if ok i then e :: replaySends ok (i + 1) rest else []

/-- ConnectionManager.connect (backend/main.py lines 98-113): register the
socket for the task (replacing any previous one), then, if a pending-updates
entry exists, replay it send by send (breaking at the first failure) and
delete the entry — the deletion happens whether or not the loop broke early.
Returns the new state plus the messages delivered to the new observer. -/
def connect (ok : ℕ → Bool) (st : ConnState) (task_id : String) (ws : ℕ) :
    ConnState × List Event :=
  let st1 : ConnState :=
    { st with active_connections := aupsert task_id ws st.active_connections }
  match alookup task_id st1.pending_updates with
  | none => (st1, [])
  | some buf =>
      ({ st1 with pending_updates := aerase task_id st1.pending_updates },
       replaySends ok 0 buf)

/-- ConnectionManager.broadcast_to_all (backend/main.py lines 151-166): send to
every active connection; the tasks whose send did not deliver are collected and
then, one by one, get the event stored and the connection removed. -/
def broadcast_to_all (out : String → SendOutcome) (st : ConnState) (e : Event) :
    ConnState :=
  let disconnected :=
    (st.active_connections.filter (fun p => decide (out p.1 ≠ .delivered))).map
      Prod.fst
  disconnected.foldl (fun s tid => disconnect (store_pending_update s tid e) tid) st

/-- One call into the ConnectionManager, used to describe its reachable
states. -/
inductive HubOp
  | opConnect (ok : ℕ → Bool) (task_id : String) (ws : ℕ)
  | opDisconnect (task_id : String)
  | opEmit (outcome : SendOutcome) (task_id : String) (e : Event)
  | opBroadcast (out : String → SendOutcome) (e : Event)

/-- Apply one ConnectionManager call to the state. -/
def applyOp (st : ConnState) : HubOp → ConnState
  | .opConnect ok tid ws => (connect ok st tid ws).1
  | .opDisconnect tid => disconnect st tid
  | .opEmit o tid e => (send_progress_update o st tid e).1
  | .opBroadcast out e => broadcast_to_all out st e

/-- The state after a sequence of ConnectionManager calls starting from the
freshly constructed manager; the reachable states are exactly these. -/
def runOps (ops : List HubOp) : ConnState := ops.foldl applyOp ConnState.init

/-! ## Task registry: backend/main.py, the batch_tasks dictionary -/

/-- The fields of one batch_tasks entry that the embedded control flow reads:
the status string and the progress percentage. -/
structure TaskRecord where
  status : String
  progress : ℕ
deriving Repr, DecidableEq

/-- The entry written by upload_excel_file (backend/main.py lines 356-362):
a fresh task starts directly in status "processing" at progress 0. -/
def uploadCreate (tasks : List (String × TaskRecord)) (task_id : String) :
    List (String × TaskRecord) :=
  aupsert task_id ⟨"processing", 0⟩ tasks

/-- Python batch_tasks[task_id]["status"] = s: raises KeyError (modelled as
none) when the task is absent, otherwise overwrites the status
unconditionally — the source performs no transition validation of any kind. -/
def setTaskStatus (tasks : List (String × TaskRecord)) (task_id : String)
    (s : String) : Option (List (String × TaskRecord)) :=
  match alookup task_id tasks with
  | none => none
  | some r => some (aupsert task_id { r with status := s } tasks)

/-- Python batch_tasks[task_id]["progress"] = p: raises KeyError (modelled as
none) when the task is absent, otherwise overwrites the progress
unconditionally — the source performs no monotonicity check. -/
def setTaskProgress (tasks : List (String × TaskRecord)) (task_id : String)
    (p : ℕ) : Option (List (String × TaskRecord)) :=
  match alookup task_id tasks with
  | none => none
  | some r => some (aupsert task_id { r with progress := p } tasks)

/-- The processing_steps list of process_excel_background
(backend/main.py lines 444-451). -/
def processing_steps : List (ℕ × String) :=
  [(30, "Validating claim data..."),
   (40, "Initializing AI agents..."),
   (50, "Running fraud detection analysis..."),
   (70, "Evaluating risk factors..."),
   (85, "Generating recommendations..."),
   (95, "Finalizing results...")]

/-- Every progress value process_excel_background stores into
batch_tasks[task_id]["progress"] on the success path, in write order: 5 at
line 395, the loop over processing_steps at line 455, and 100 inside the
completion update at line 483. The upload handler wrote 0 beforehand. -/
def successProgressWrites : List ℕ :=
  [5] ++ processing_steps.map Prod.fst ++ [100]

/-- Every status string process_excel_background ever stores, across both the
success path (line 394 and line 483) and the exception handler (line 504). -/
def backgroundStatusWrites (success : Bool) : List String :=
  if success then ["processing", "completed"] else ["processing", "failed"]

/-! ## Websocket endpoint handshake: backend/main.py, websocket_endpoint -/

/-- The connection_established message sent right after connect
(backend/main.py lines 178-183). -/
def connEstablishedEvent : Event :=
  ⟨.connection_established, none, "Connected to batch processing updates"⟩

/-- The synthetic status snapshot websocket_endpoint sends when the task id is
present in batch_tasks (backend/main.py lines 186-218): completed status
yields a completed message at progress 100, failed an error message,
processing a progress message at the stored progress, any other status
nothing. -/
def statusSnapshot (r : TaskRecord) : List Event :=
  if r.status = "completed" then
    [⟨.completed, some 100, "Batch processing completed successfully!"⟩]
  else if r.status = "failed" then
    [⟨.error, none, "failed"⟩]
  else if r.status = "processing" then
    [⟨.progress, some r.progress,
      "Processing in progress... " ++ toString r.progress ++ "%"⟩]
  else []

/-- The initial handshake of websocket_endpoint (backend/main.py lines
170-218), before the keep-alive loop: manager.connect (which replays and
clears any pending buffer), then send_progress_update with the
connection_established message, then, if the task exists in batch_tasks, one
status snapshot through send_progress_update. ok gives the replay send
outcomes, o1 and o2 those of the two follow-up sends. Returns the new manager
state and everything delivered to the observer, in order. -/
def websocket_endpoint_init (ok : ℕ → Bool) (o1 o2 : SendOutcome)
    (tasks : List (String × TaskRecord)) (st : ConnState) (task_id : String)
    (ws : ℕ) : ConnState × List Event :=
  let r1 := connect ok st task_id ws
  let r2 := send_progress_update o1 r1.1 task_id connEstablishedEvent
  match alookup task_id tasks with
  | none => (r2.1, r1.2 ++ r2.2)
  | some r =>
      match statusSnapshot r with
      | [] => (r2.1, r1.2 ++ r2.2)
      | ev :: _ =>
          let r3 := send_progress_update o2 r2.1 task_id ev
          (r3.1, r1.2 ++ r2.2 ++ r3.2)

/-! ## Derived views and shared lemmas -/

/-- The latest recorded vote of one voter on one item, read off the nested
score dictionaries. -/
def latestVote (st : MCPState) (claim_id agent : String) : Option VoteEntry :=
  match alookup claim_id st.scores with
  | none => none
  | some l => alookup agent l

/-- The per-task pending buffer as the source reads it (missing entry means
empty buffer). -/
def bufferOf (st : ConnState) (task_id : String) : List Event :=
  (alookup task_id st.pending_updates).getD []

theorem mem_aupsert {α β : Type} [DecidableEq α] {k : α} {v : β}
    {l : List (α × β)} {p : α × β} (h : p ∈ aupsert k v l) :
    p = (k, v) ∨ p ∈ l := by
  induction l with
  | nil =>
      simp only [aupsert, List.mem_singleton] at h
      exact Or.inl h
  | cons q rest ih =>
      obtain ⟨k', v'⟩ := q
      by_cases hk : k' = k
      · simp only [aupsert, if_pos hk, List.mem_cons] at h
        rcases h with h | h
        · exact Or.inl h
        · exact Or.inr (List.mem_cons_of_mem _ h)
      · simp only [aupsert, if_neg hk, List.mem_cons] at h
        rcases h with h | h
        · exact Or.inr (by simp [h])
        · rcases ih h with h' | h'
          · exact Or.inl h'
          · exact Or.inr (List.mem_cons_of_mem _ h')

theorem mem_aerase {α β : Type} [DecidableEq α] {k : α}
    {l : List (α × β)} {p : α × β} (h : p ∈ aerase k l) : p ∈ l := by
  induction l with
  | nil => simp [aerase] at h
  | cons q rest ih =>
      obtain ⟨k', v'⟩ := q
      by_cases hk : k' = k
      · simp only [aerase, if_pos hk] at h
        exact List.mem_cons_of_mem _ h
      · simp only [aerase, if_neg hk, List.mem_cons] at h
        rcases h with h | h
        · simp [h]
        · exact List.mem_cons_of_mem _ (ih h)

theorem alookup_some_mem {α β : Type} [DecidableEq α] {k : α} {v : β}
    {l : List (α × β)} (h : alookup k l = some v) : (k, v) ∈ l := by
  induction l with
  | nil => simp [alookup] at h
  | cons q rest ih =>
      obtain ⟨k', v'⟩ := q
      by_cases hk : k' = k
      · subst hk
        simp only [alookup, eq_self_iff_true, if_true, Option.some.injEq] at h
        simp [h]
      · simp only [alookup, if_neg hk] at h
        exact List.mem_cons_of_mem _ (ih h)

theorem mem_keys_aupsert {α β : Type} [DecidableEq α] {k a : α} {v : β}
    {l : List (α × β)} (h : a ∈ (aupsert k v l).map Prod.fst) :
    a = k ∨ a ∈ l.map Prod.fst := by
  induction l with
  | nil =>
      simp only [aupsert, List.map_cons, List.map_nil, List.mem_singleton] at h
      exact Or.inl h
  | cons q rest ih =>
      obtain ⟨k', v'⟩ := q
      by_cases hk : k' = k
      · simp only [aupsert, if_pos hk, List.map_cons, List.mem_cons] at h
        rcases h with h | h
        · exact Or.inl h
        · exact Or.inr (by
            simp only [List.map_cons, List.mem_cons]
            exact Or.inr h)
      · simp only [aupsert, if_neg hk, List.map_cons, List.mem_cons] at h
        rcases h with h | h
        · exact Or.inr (by
            simp only [List.map_cons, List.mem_cons]
            exact Or.inl h)
        · rcases ih h with h' | h'
          · exact Or.inl h'
          · exact Or.inr (by
              simp only [List.map_cons, List.mem_cons]
              exact Or.inr h')

theorem aupsert_nodupKeys {α β : Type} [DecidableEq α] (k : α) (v : β)
    {l : List (α × β)} (h : NodupKeys l) : NodupKeys (aupsert k v l) := by
  induction l with
  | nil => simp [aupsert, NodupKeys]
  | cons q rest ih =>
      obtain ⟨k', v'⟩ := q
      unfold NodupKeys at h ⊢
      simp only [List.map_cons, List.nodup_cons] at h
      by_cases hk : k' = k
      · subst hk
        simp only [aupsert, eq_self_iff_true, if_true, List.map_cons,
          List.nodup_cons]
        exact h
      · simp only [aupsert, if_neg hk, List.map_cons, List.nodup_cons]
        refine ⟨?_, ih h.2⟩
        intro hc
        rcases mem_keys_aupsert hc with h' | h'
        · exact hk h'
        · exact h.1 h'

theorem filter_key_eq_nil {α β : Type} [DecidableEq α] {k : α}
    {l : List (α × β)} (h : k ∉ l.map Prod.fst) :
    l.filter (fun p => decide (p.1 = k)) = [] := by
  induction l with
  | nil => rfl
  | cons q rest ih =>
      obtain ⟨k', v'⟩ := q
      simp only [List.map_cons, List.mem_cons] at h
      push_neg at h
      have hne : ¬ (k' = k) := fun hc => h.1 hc.symm
      simp only [List.filter_cons, decide_eq_true_eq, if_neg hne]
      exact ih h.2

theorem filter_key_aupsert {α β : Type} [DecidableEq α] (k : α) (v : β)
    {l : List (α × β)} (h : NodupKeys l) :
    (aupsert k v l).filter (fun p => decide (p.1 = k)) = [(k, v)] := by
  induction l with
  | nil => simp [aupsert]
  | cons q rest ih =>
      obtain ⟨k', v'⟩ := q
      unfold NodupKeys at h
      simp only [List.map_cons, List.nodup_cons] at h
      by_cases hk : k' = k
      · subst hk
        have h1 : rest.filter (fun p => decide (p.1 = k')) = [] :=
          filter_key_eq_nil h.1
        simp [aupsert, List.filter_cons, h1]
      · have h2 : ¬ ((k', v').1 = k) := hk
        simp only [aupsert, if_neg hk, List.filter_cons, decide_eq_true_eq,
          if_neg h2]
        exact ih h.2

theorem store_active (st : ConnState) (tid : String) (e : Event) :
    (store_pending_update st tid e).active_connections
      = st.active_connections := by
  unfold store_pending_update
  split <;> rfl

theorem bufferOf_store (st : ConnState) (tid : String) (e : Event) :
    bufferOf (store_pending_update st tid e) tid
      = if e.kind = EventKind.heartbeat then bufferOf st tid
        else lastN 10 (bufferOf st tid ++ [e]) := by
  by_cases hb : e.kind = EventKind.heartbeat
  · simp [store_pending_update, bufferOf, hb, alookup_aupsert_self]
  · simp [store_pending_update, bufferOf, hb, alookup_aupsert_self]

theorem replaySends_take (ok : ℕ → Bool) (buf : List Event) :
    ∀ i : ℕ, ∃ n, replaySends ok i buf = buf.take n := by
  induction buf with
  | nil => exact fun i => ⟨0, rfl⟩
  | cons e rest ih =>
      intro i
      cases hok : ok i with
      | false => exact ⟨0, by simp [replaySends, hok]⟩
      | true =>
          obtain ⟨n, hn⟩ := ih (i + 1)
          exact ⟨n + 1, by simp [replaySends, hok, hn]⟩

theorem replaySends_all (ok : ℕ → Bool) (h : ∀ i, ok i = true)
    (buf : List Event) : ∀ i : ℕ, replaySends ok i buf = buf := by
  induction buf with
  | nil => exact fun i => rfl
  | cons e rest ih => exact fun i => by simp [replaySends, h i, ih (i + 1)]

theorem lastN_length_le {α : Type} (n : ℕ) (l : List α) :
    (lastN n l).length ≤ n := by
  simp only [lastN, List.length_drop]
  omega

theorem mem_lastN {α : Type} {n : ℕ} {l : List α} {a : α}
    (h : a ∈ lastN n l) : a ∈ l :=
  List.drop_subset _ l h

theorem lastN_of_length_le {α : Type} {n : ℕ} {l : List α}
    (h : l.length ≤ n) : lastN n l = l := by
  unfold lastN
  rw [Nat.sub_eq_zero_of_le h, List.drop_zero]

theorem lastN_append_absorb {α : Type} (n : ℕ) (a t : List α) :
    lastN n (lastN n a ++ t) = lastN n (a ++ t) := by
  by_cases h : a.length ≤ n
  · rw [lastN_of_length_le h]
  · unfold lastN
    rw [List.length_append, List.length_append, List.length_drop,
      List.drop_append_eq_append_drop, List.drop_append_eq_append_drop,
      List.drop_drop, List.length_drop]
    congr 1
    · congr 1
      omega
    · congr 1
      omega

/-- The per-entry shape invariant of the pending buffers: at most 10 events,
none of them a heartbeat. -/
def BufOk (buf : List Event) : Prop :=
  buf.length ≤ 10 ∧ ∀ e ∈ buf, e.kind ≠ EventKind.heartbeat

/-- Every pending-updates entry of the manager satisfies BufOk. -/
def BufInv (st : ConnState) : Prop := ∀ p ∈ st.pending_updates, BufOk p.2

theorem bufOk_bufferOf {st : ConnState} (h : BufInv st) (tid : String) :
    BufOk (bufferOf st tid) := by
  unfold bufferOf
  cases hl : alookup tid st.pending_updates with
  | none => exact ⟨by simp, by simp⟩
  | some b => exact h (tid, b) (alookup_some_mem hl)

theorem store_preserves_bufInv {st : ConnState} (h : BufInv st)
    (tid : String) (e : Event) : BufInv (store_pending_update st tid e) := by
  intro p hp
  unfold store_pending_update at hp
  by_cases hhb : e.kind = EventKind.heartbeat
  · simp only [if_pos hhb] at hp
    rcases mem_aupsert hp with rfl | hp'
    · exact bufOk_bufferOf h tid
    · exact h _ hp'
  · simp only [if_neg hhb] at hp
    rcases mem_aupsert hp with rfl | hp'
    · refine ⟨lastN_length_le 10 _, ?_⟩
      intro x hx
      rcases List.mem_append.mp (mem_lastN hx) with hx' | hx'
      · exact (bufOk_bufferOf h tid).2 x hx'
      · rw [List.mem_singleton.mp hx']
        exact hhb
    · exact h _ hp'

theorem disconnect_preserves_bufInv {st : ConnState} (h : BufInv st)
    (tid : String) : BufInv (disconnect st tid) := h

theorem connect_preserves_bufInv {st : ConnState} (h : BufInv st)
    (ok : ℕ → Bool) (tid : String) (ws : ℕ) :
    BufInv (connect ok st tid ws).1 := by
  cases hl : alookup tid st.pending_updates with
  | none =>
      have hpe : (connect ok st tid ws).1.pending_updates
          = st.pending_updates := by
        simp [connect, hl]
      intro p hp
      rw [hpe] at hp
      exact h p hp
  | some buf =>
      have hpe : (connect ok st tid ws).1.pending_updates
          = aerase tid st.pending_updates := by
        simp [connect, hl]
      intro p hp
      rw [hpe] at hp
      exact h p (mem_aerase hp)

theorem send_preserves_bufInv {st : ConnState} (h : BufInv st)
    (o : SendOutcome) (tid : String) (e : Event) :
    BufInv (send_progress_update o st tid e).1 := by
  cases hl : alookup tid st.active_connections with
  | none =>
      simp only [send_progress_update, hl]
      exact store_preserves_bufInv h tid e
  | some ws =>
      cases o with
      | delivered =>
          simp only [send_progress_update, hl]
          exact h
      | notConnected =>
          simp only [send_progress_update, hl]
          exact disconnect_preserves_bufInv
            (store_preserves_bufInv h tid e) tid
      | raised =>
          simp only [send_progress_update, hl]
          exact disconnect_preserves_bufInv
            (store_preserves_bufInv h tid e) tid

theorem foldStore_preserves_bufInv (e : Event) :
    ∀ (l : List String) (st : ConnState), BufInv st →
      BufInv (l.foldl
        (fun s tid => disconnect (store_pending_update s tid e) tid) st) := by
  intro l
  induction l with
  | nil => exact fun st h => h
  | cons tid rest ih =>
      intro st h
      exact ih _ (disconnect_preserves_bufInv
        (store_preserves_bufInv h tid e) tid)

theorem broadcast_preserves_bufInv {st : ConnState} (h : BufInv st)
    (out : String → SendOutcome) (e : Event) :
    BufInv (broadcast_to_all out st e) :=
  foldStore_preserves_bufInv e _ st h

theorem applyOp_preserves_bufInv {st : ConnState} (h : BufInv st)
    (op : HubOp) : BufInv (applyOp st op) := by
  cases op with
  | opConnect ok tid ws => exact connect_preserves_bufInv h ok tid ws
  | opDisconnect tid => exact disconnect_preserves_bufInv h tid
  | opEmit o tid e => exact send_preserves_bufInv h o tid e
  | opBroadcast out e => exact broadcast_preserves_bufInv h out e

theorem foldl_applyOp_bufInv :
    ∀ (ops : List HubOp) (st : ConnState), BufInv st →
      BufInv (ops.foldl applyOp st) := by
  intro ops
  induction ops with
  | nil => exact fun st h => h
  | cons op rest ih =>
      intro st h
      exact ih _ (applyOp_preserves_bufInv h op)

/-- A sequence of Emit calls for one task. The fixed outcome argument is
irrelevant while no observer is registered for the task: the source then
always falls back to _store_pending_update. -/
def emitAll (tid : String) (evs : List Event) (st : ConnState) : ConnState :=
  evs.foldl
    (fun s e => (send_progress_update SendOutcome.delivered s tid e).1) st

theorem emitAll_buffer :
    ∀ (evs : List Event) (st : ConnState) (tid : String),
      alookup tid st.active_connections = none →
      bufferOf (emitAll tid evs st) tid
        = evs.foldl
            (fun b e => if e.kind = EventKind.heartbeat then b
              else lastN 10 (b ++ [e])) (bufferOf st tid) := by
  intro evs
  induction evs with
  | nil => exact fun st tid h => rfl
  | cons e rest ih =>
      intro st tid h
      have hsend : (send_progress_update SendOutcome.delivered st tid e).1
          = store_pending_update st tid e := by
        simp [send_progress_update, h]
      have hactive : alookup tid
          (store_pending_update st tid e).active_connections = none := by
        rw [store_active]
        exact h
      have hrest := ih (store_pending_update st tid e) tid hactive
      simp only [emitAll, List.foldl_cons, hsend]
      simp only [emitAll] at hrest
      rw [hrest, bufferOf_store]

theorem foldl_step_eq (evs : List Event) :
    ∀ b : List Event, b.length ≤ 10 →
      evs.foldl (fun b e => if e.kind = EventKind.heartbeat then b
          else lastN 10 (b ++ [e])) b
        = lastN 10
            (b ++ evs.filter (fun e => decide (e.kind ≠ EventKind.heartbeat))) := by
  induction evs with
  | nil =>
      intro b hb
      simp only [List.foldl_nil, List.filter_nil, List.append_nil]
      exact (lastN_of_length_le hb).symm
  | cons e rest ih =>
      intro b hb
      by_cases hbk : e.kind = EventKind.heartbeat
      · simp only [List.foldl_cons, if_pos hbk, List.filter_cons]
        have hd : decide (e.kind ≠ EventKind.heartbeat) = false := by
          simp [hbk]
        rw [hd]
        simp only [Bool.false_eq_true, if_false]
        exact ih b hb
      · simp only [List.foldl_cons, if_neg hbk, List.filter_cons]
        have hd : decide (e.kind ≠ EventKind.heartbeat) = true := by
          simp [hbk]
        rw [hd]
        simp only [if_true]
        rw [ih _ (lastN_length_le 10 _), lastN_append_absorb]
        simp [List.append_assoc]

/-! ## Claims about the ScoreStore -/

/-- C9: for an item with no recorded votes, get_consensus returns reached =
false with an empty detail, and never an error (the embedded function is
total). -/
theorem C9_consensus_without_votes (st : MCPState) (claim_id : String)
    (h : alookup claim_id st.scores = none) :
    get_consensus st claim_id = (false, none) := by
  simp [get_consensus, h]

/-- Witness for C9 at the freshly initialised store. -/
theorem C9_consensus_without_votes_witness :
    get_consensus MCPState.init "CLM-404" = (false, none) :=
  C9_consensus_without_votes MCPState.init "CLM-404" rfl

/-- C6: update_score rejects a score outside [0,1] returning failure and
leaving both the latest-vote map and the audit history untouched; a score
inside [0,1] succeeds, sets the latest vote of the (item, voter) pair and
appends exactly one history entry. -/
theorem C6_record_vote_validation (st : MCPState) (claim_id agent : String)
    (score : ℚ) (ts : ℕ) (md : String) :
    ((score < 0 ∨ 1 < score) →
      update_score st claim_id agent score ts md = (false, st)) ∧
    (0 ≤ score → score ≤ 1 →
      (update_score st claim_id agent score ts md).1 = true ∧
      latestVote (update_score st claim_id agent score ts md).2 claim_id agent
        = some ⟨score, ts, md⟩ ∧
      (update_score st claim_id agent score ts md).2.history
        = st.history ++ [⟨claim_id, agent, score, ts, md⟩]) := by
  constructor
  · intro h
    have hnot : ¬ (0 ≤ score ∧ score ≤ 1) := by
      rcases h with h | h
      · exact fun hc => absurd hc.1 (not_le.mpr h)
      · exact fun hc => absurd hc.2 (not_le.mpr h)
    simp [update_score, if_neg hnot]
  · intro h0 h1
    have hcond : 0 ≤ score ∧ score ≤ 1 := ⟨h0, h1⟩
    refine ⟨?_, ?_, ?_⟩
    · simp [update_score, if_pos hcond]
    · simp [update_score, if_pos hcond, latestVote, alookup_aupsert_self]
    · simp [update_score, if_pos hcond]

/-- Witness for C6: a score of 2 is rejected without mutation, a score of 1/2
is recorded. -/
theorem C6_record_vote_validation_witness :
    update_score MCPState.init "CLM-1" "social" 2 0 "" = (false, MCPState.init) ∧
    (update_score MCPState.init "CLM-1" "social" (1/2) 0 "").1 = true :=
  ⟨(C6_record_vote_validation MCPState.init "CLM-1" "social" 2 0 "").1
      (Or.inr (by norm_num)),
   ((C6_record_vote_validation MCPState.init "CLM-1" "social" (1/2) 0 "").2
      (by norm_num) (by norm_num)).1⟩

/-- C8: voting twice for the same (item, voter) pair leaves exactly one
active vote for that voter, carrying the second score, while the audit
history receives both entries. -/
theorem C8_revote_overwrites (st : MCPState) (claim_id agent : String)
    (s1 s2 : ℚ) (ts1 ts2 : ℕ) (m1 m2 : String)
    (hnd : NodupKeys ((alookup claim_id st.scores).getD []))
    (h1 : 0 ≤ s1) (h2 : s1 ≤ 1) (h3 : 0 ≤ s2) (h4 : s2 ≤ 1) :
    (((alookup claim_id
          ((update_score (update_score st claim_id agent s1 ts1 m1).2
            claim_id agent s2 ts2 m2).2.scores)).getD []).filter
        (fun p => decide (p.1 = agent)))
      = [(agent, ⟨s2, ts2, m2⟩)] ∧
    (update_score (update_score st claim_id agent s1 ts1 m1).2
        claim_id agent s2 ts2 m2).2.history
      = st.history ++ [⟨claim_id, agent, s1, ts1, m1⟩,
                       ⟨claim_id, agent, s2, ts2, m2⟩] := by
  simp only [update_score, if_pos (And.intro h1 h2), if_pos (And.intro h3 h4)]
  constructor
  · rw [alookup_aupsert_self]
    simp only [Option.getD_some]
    rw [alookup_aupsert_self]
    simp only [Option.getD_some]
    exact filter_key_aupsert agent _ (aupsert_nodupKeys agent _ hnd)
  · simp

/-- Number of distinct voters whose latest score reaches the fraud threshold,
written over the latest-score mapping as the specification words it. -/
def countAboveThreshold (l : List (String × ℚ)) : ℕ :=
  (l.filter (fun p => decide (FRAUD_THRESHOLD ≤ p.2))).length

/-- The specification example store: latest votes A 0.8, B 0.75, C 0.9, D 0.2
for one item, recorded through update_score on a fresh store. -/
def consensusExampleState : MCPState :=
  (update_score ((update_score ((update_score ((update_score MCPState.init
    "CLM-1" "A" (4/5) 0 "").2) "CLM-1" "B" (3/4) 1 "").2)
    "CLM-1" "C" (9/10) 2 "").2) "CLM-1" "D" (1/5) 3 "").2

theorem consensusExampleState_eq :
    consensusExampleState =
      ⟨[("CLM-1",
          [("A", ⟨4/5, 0, ""⟩), ("B", ⟨3/4, 1, ""⟩), ("C", ⟨9/10, 2, ""⟩),
           ("D", ⟨1/5, 3, ""⟩)])],
       [⟨"CLM-1", "A", 4/5, 0, ""⟩, ⟨"CLM-1", "B", 3/4, 1, ""⟩,
        ⟨"CLM-1", "C", 9/10, 2, ""⟩, ⟨"CLM-1", "D", 1/5, 3, ""⟩]⟩ := by
  simp only [consensusExampleState, update_score, MCPState.init]
  norm_num [alookup, aupsert]
  simp

theorem consensusExample_consensus :
    get_consensus consensusExampleState "CLM-1"
      = (true, some ⟨[("A", 4/5), ("B", 3/4), ("C", 9/10), ("D", 1/5)],
          33/50, 9/10, 3,
          [("A", ⟨4/5, 0, ""⟩), ("B", ⟨3/4, 1, ""⟩), ("C", ⟨9/10, 2, ""⟩),
           ("D", ⟨1/5, 3, ""⟩)]⟩) := by
  rw [consensusExampleState_eq]
  simp only [get_consensus, alookup]
  simp only [List.map, List.filter, List.isEmpty]
  norm_num [FRAUD_THRESHOLD, CONSENSUS_THRESHOLD, round2, pyRound, Int.fract,
    round_eq, listMax]

/-- C1 counterexample: on the spec example votes {A 0.8, B 0.75, C 0.9, D 0.2}
consensus is reached, but the detail returned by get_consensus carries
average_score 0.66 (= 33/50), not the exact average 0.6625 (= 53/80) the claim
states, because the source rounds to two decimal places. -/
theorem C1_average_rounded_counterexample :
    (get_consensus consensusExampleState "CLM-1").1 = true ∧
    ((get_consensus consensusExampleState "CLM-1").2.getD
        ⟨[], 0, 0, 0, []⟩).average_score = 33/50 ∧
    ((33 : ℚ)/50) ≠ 53/80 := by
  rw [consensusExample_consensus]
  norm_num

/-- C1 (amended): for every item with at least one recorded vote,
get_consensus reaches consensus exactly when the number of voters whose
latest score is at least the fraud threshold 0.7 meets the quorum 3, and the
detail carries the full latest-score mapping, the two-decimal rounding of the
average of those scores, the two-decimal rounding of their maximum, and the
above-threshold count; on the example votes {A 0.8, B 0.75, C 0.9, D 0.2} it
returns reached = true, fraud_count = 3, average_score = 0.66 and
max_score = 0.9. -/
theorem C1_consensus_quorum_and_detail :
    (∀ (st : MCPState) (claim_id : String) (sd : List (String × VoteEntry)),
      alookup claim_id st.scores = some sd → sd ≠ [] →
      ((get_consensus st claim_id).1 = true ↔
        CONSENSUS_THRESHOLD ≤
          countAboveThreshold (sd.map (fun p => (p.1, p.2.score)))) ∧
      (get_consensus st claim_id).2 =
        some { scores := sd.map (fun p => (p.1, p.2.score))
               average_score :=
                 round2 ((sd.map (fun p => p.2.score)).sum / (sd.length : ℚ))
               max_score := round2 (listMax (sd.map (fun p => p.2.score)))
               fraud_count :=
                 countAboveThreshold (sd.map (fun p => (p.1, p.2.score)))
               agent_details := sd }) ∧
    get_consensus consensusExampleState "CLM-1"
      = (true, some ⟨[("A", 4/5), ("B", 3/4), ("C", 9/10), ("D", 1/5)],
          33/50, 9/10, 3,
          [("A", ⟨4/5, 0, ""⟩), ("B", ⟨3/4, 1, ""⟩), ("C", ⟨9/10, 2, ""⟩),
           ("D", ⟨1/5, 3, ""⟩)]⟩) := by
  constructor
  · intro st claim_id sd hsd hne
    have hempty : (sd.map (fun p => (p.1, p.2.score))).isEmpty = false := by
      cases sd with
      | nil => exact absurd rfl hne
      | cons a l => rfl
    have hcount : (((sd.map (fun p => (p.1, p.2.score))).map Prod.snd).filter
        (fun s => decide (FRAUD_THRESHOLD ≤ s))).length
        = countAboveThreshold (sd.map (fun p => (p.1, p.2.score))) := by
      simp only [countAboveThreshold, List.map_map, List.filter_map,
        List.length_map]
      rfl
    have hsnd : (sd.map (fun p => (p.1, p.2.score))).map Prod.snd
        = sd.map (fun p => p.2.score) := by
      simp [List.map_map, Function.comp]
    have hcount2 : ((sd.map (fun p => p.2.score)).filter
        (fun s => decide (FRAUD_THRESHOLD ≤ s))).length
        = countAboveThreshold (sd.map (fun p => (p.1, p.2.score))) := by
      simp only [countAboveThreshold, List.filter_map, List.length_map]
      rfl
    constructor
    · simp only [get_consensus, hsd, hcount]
      exact decide_eq_true_iff
    · simp only [get_consensus, hsd, hempty, hcount, hsnd, hcount2,
        Bool.false_eq_true, if_false, List.length_map]
  · exact consensusExample_consensus

/-- Witness for C1: the quorum equivalence of the amended theorem evaluated at
the example store. -/
theorem C1_consensus_quorum_and_detail_witness :
    (get_consensus consensusExampleState "CLM-1").1 = true ↔
      CONSENSUS_THRESHOLD ≤ countAboveThreshold
        [("A", 4/5), ("B", 3/4), ("C", 9/10), ("D", 1/5)] := by
  have h := (C1_consensus_quorum_and_detail.1 consensusExampleState "CLM-1"
    [("A", ⟨4/5, 0, ""⟩), ("B", ⟨3/4, 1, ""⟩), ("C", ⟨9/10, 2, ""⟩),
     ("D", ⟨1/5, 3, ""⟩)]
    (by rw [consensusExampleState_eq]; simp [alookup]) (by simp)).1
  simpa using h

/-- Witness for C8: voter A reports 0.2 then 0.9 on a fresh store; exactly one
active vote valued 0.9 remains and the history has both entries. -/
theorem C8_revote_overwrites_witness :
    (((alookup "CLM-1"
          ((update_score (update_score MCPState.init "CLM-1" "A" (2/10) 0 "").2
            "CLM-1" "A" (9/10) 1 "").2.scores)).getD []).filter
        (fun p => decide (p.1 = "A")))
      = [("A", ⟨9/10, 1, ""⟩)] ∧
    (update_score (update_score MCPState.init "CLM-1" "A" (2/10) 0 "").2
        "CLM-1" "A" (9/10) 1 "").2.history
      = [⟨"CLM-1", "A", 2/10, 0, ""⟩, ⟨"CLM-1", "A", 9/10, 1, ""⟩] :=
  C8_revote_overwrites MCPState.init "CLM-1" "A" (2/10) (9/10) 0 1 "" ""
    (by simp [MCPState.init, alookup, NodupKeys])
    (by norm_num) (by norm_num) (by norm_num) (by norm_num)

/-! ## Claims about the NotificationHub -/

/-- C7: when no observer is registered for the task, or the send to the
registered observer fails, send_progress_update falls back to
store_pending_update, which appends the event (capped at the last 10 entries)
unless it is a heartbeat; a send failure additionally removes the observer
registration; and the embedded function is total over every outcome, so a
send failure never escapes to the emitting caller. -/
theorem C7_emit_failure_degrades (st : ConnState) (task_id : String)
    (e : Event) (o : SendOutcome) (hnd : NodupKeys st.active_connections) :
    (alookup task_id st.active_connections = none →
      send_progress_update o st task_id e
        = (store_pending_update st task_id e, [])) ∧
    (∀ ws, alookup task_id st.active_connections = some ws →
      o ≠ SendOutcome.delivered →
      send_progress_update o st task_id e
        = (disconnect (store_pending_update st task_id e) task_id, []) ∧
      alookup task_id
          ((send_progress_update o st task_id e).1).active_connections
        = none) ∧
    (e.kind ≠ EventKind.heartbeat →
      bufferOf (store_pending_update st task_id e) task_id
        = lastN 10 (bufferOf st task_id ++ [e])) := by
  refine ⟨?_, ?_, ?_⟩
  · intro h
    simp [send_progress_update, h]
  · intro ws hws ho
    have heq : send_progress_update o st task_id e
        = (disconnect (store_pending_update st task_id e) task_id, []) := by
      cases o with
      | delivered => exact absurd rfl ho
      | notConnected => simp [send_progress_update, hws]
      | raised => simp [send_progress_update, hws]
    refine ⟨heq, ?_⟩
    rw [heq]
    show alookup task_id
      (aerase task_id (store_pending_update st task_id e).active_connections)
      = none
    rw [store_active]
    exact alookup_aerase_self task_id _ hnd
  · intro hb
    rw [bufferOf_store, if_neg hb]

/-- Witness for C7: with observer socket 1 registered for task t, a raising
send on a progress event stores the event and removes the registration. -/
theorem C7_emit_failure_degrades_witness :
    send_progress_update SendOutcome.raised
        ⟨[("t", 1)], []⟩ "t" ⟨EventKind.progress, some 42, ""⟩
      = (disconnect
          (store_pending_update ⟨[("t", 1)], []⟩ "t"
            ⟨EventKind.progress, some 42, ""⟩) "t", []) :=
  (((C7_emit_failure_degrades ⟨[("t", 1)], []⟩ "t"
      ⟨EventKind.progress, some 42, ""⟩ SendOutcome.raised
      (by simp [NodupKeys])).2.1) 1 rfl (by simp)).1

/-- C3 counterexample: with a one-event pending buffer and a socket whose
first send already raises, connect delivers nothing — the event is skipped —
yet the buffer entry is removed all the same, so the claim that every
buffered event is replayed and the buffer cleared only once successfully
replayed is false on the code. -/
theorem C3_drops_on_failure_counterexample :
    (connect (fun _ => false)
        ⟨[], [("t", [⟨EventKind.progress, some 1, ""⟩])]⟩ "t" 7).2 = [] ∧
    alookup "t" ((connect (fun _ => false)
        ⟨[], [("t", [⟨EventKind.progress, some 1, ""⟩])]⟩ "t" 7).1).pending_updates
      = none ∧
    ([] : List Event) ≠ [⟨EventKind.progress, some 1, ""⟩] := by
  refine ⟨?_, ?_, by simp⟩
  · simp [connect, alookup, replaySends, aerase]
  · simp [connect, alookup, replaySends, aerase]

/-- C3 (amended): connect replays the pending buffer in original order, one
send at a time, delivering a prefix of the buffer — every buffered event when
all sends succeed, with none duplicated or skipped — but stopping at the
first send failure and dropping the remainder; the buffer entry is removed in
either case, not only after a fully successful replay. -/
theorem C3_connect_replays_and_clears (ok : ℕ → Bool) (st : ConnState)
    (task_id : String) (ws : ℕ) (buf : List Event)
    (hnd : NodupKeys st.pending_updates)
    (hbuf : alookup task_id st.pending_updates = some buf) :
    (∃ n, (connect ok st task_id ws).2 = buf.take n) ∧
    ((∀ i, ok i = true) → (connect ok st task_id ws).2 = buf) ∧
    alookup task_id ((connect ok st task_id ws).1).pending_updates = none := by
  simp only [connect, hbuf]
  exact ⟨replaySends_take ok buf 0,
    fun h => replaySends_all ok h buf 0,
    alookup_aerase_self task_id _ hnd⟩

/-- Witness for C3: a two-event buffer replayed over an always-succeeding
socket is delivered in full. -/
theorem C3_connect_replays_and_clears_witness :
    (connect (fun _ => true)
        ⟨[], [("t", [⟨EventKind.progress, some 1, ""⟩,
                     ⟨EventKind.progress, some 2, ""⟩])]⟩ "t" 7).2
      = [⟨EventKind.progress, some 1, ""⟩, ⟨EventKind.progress, some 2, ""⟩] :=
  (C3_connect_replays_and_clears (fun _ => true)
      ⟨[], [("t", [⟨EventKind.progress, some 1, ""⟩,
                   ⟨EventKind.progress, some 2, ""⟩])]⟩ "t" 7
      [⟨EventKind.progress, some 1, ""⟩, ⟨EventKind.progress, some 2, ""⟩]
      (by simp [NodupKeys]) rfl).2.1 (fun i => rfl)

/-- C4: in every state reachable by any sequence of ConnectionManager calls,
each pending buffer holds at most 10 events, none a heartbeat; emitting any
event sequence for a task with no registered observer leaves exactly the last
10 non-heartbeat events in emission order; emitting 15 progress events while
disconnected leaves events 6 through 15. -/
theorem C4_buffer_capacity_and_fifo :
    (∀ ops : List HubOp, BufInv (runOps ops)) ∧
    (∀ (tid : String) (evs : List Event),
      bufferOf (emitAll tid evs ConnState.init) tid
        = lastN 10
            (evs.filter (fun e => decide (e.kind ≠ EventKind.heartbeat)))) ∧
    bufferOf (emitAll "t"
        ((List.range 15).map
          (fun i => ⟨EventKind.progress, some (i + 1), ""⟩))
        ConnState.init) "t"
      = List.drop 5 ((List.range 15).map
          (fun i => ⟨EventKind.progress, some (i + 1), ""⟩)) := by
  have hfifo : ∀ (tid : String) (evs : List Event),
      bufferOf (emitAll tid evs ConnState.init) tid
        = lastN 10
            (evs.filter (fun e => decide (e.kind ≠ EventKind.heartbeat))) := by
    intro tid evs
    rw [emitAll_buffer evs ConnState.init tid rfl]
    have hinit : bufferOf ConnState.init tid = [] := rfl
    rw [hinit, foldl_step_eq evs [] (by simp), List.nil_append]
  refine ⟨?_, hfifo, ?_⟩
  · intro ops
    exact foldl_applyOp_bufInv ops ConnState.init (by intro p hp; simp [ConnState.init] at hp)
  · rw [hfifo]
    decide

/-- Witness for C4: the reachable-state invariant applied after one emit. -/
theorem C4_buffer_capacity_and_fifo_witness :
    BufInv (runOps [HubOp.opEmit SendOutcome.delivered "t"
      ⟨EventKind.progress, some 1, ""⟩]) :=
  C4_buffer_capacity_and_fifo.1
    [HubOp.opEmit SendOutcome.delivered "t" ⟨EventKind.progress, some 1, ""⟩]

/-! ## Claims about the task registry -/

/-- C2 counterexample: a status write out of the terminal state "completed"
is accepted and changes the stored status to "failed"; nothing rejects it and
no InvalidTransition failure exists in the code. -/
theorem C2_terminal_overwrite_counterexample :
    setTaskStatus [("t", ⟨"completed", 100⟩)] "t" "failed"
      = some [("t", ⟨"failed", 100⟩)] ∧ ("failed" : String) ≠ "completed" := by
  refine ⟨?_, by simp⟩
  simp [setTaskStatus, alookup, aupsert]

/-- C2 (amended): the task store performs no state-machine validation and has
no InvalidTransition failure: a status write to any existing task — including
one in a terminal state — succeeds and replaces the stored status; tasks are
created by the upload path directly in status "processing" (no "created"
status exists), and the background worker only ever writes the statuses
"processing", "completed" and "failed". -/
theorem C2_no_transition_guard :
    (∀ (tasks : List (String × TaskRecord)) (tid : String) (r : TaskRecord)
        (s : String), alookup tid tasks = some r →
      setTaskStatus tasks tid s
          = some (aupsert tid { r with status := s } tasks) ∧
      alookup tid (aupsert tid { r with status := s } tasks)
        = some { r with status := s }) ∧
    (∀ (tasks : List (String × TaskRecord)) (tid : String),
      alookup tid (uploadCreate tasks tid) = some ⟨"processing", 0⟩) ∧
    (∀ success : Bool, ∀ s ∈ backgroundStatusWrites success,
      s = "processing" ∨ s = "completed" ∨ s = "failed") := by
  refine ⟨?_, ?_, ?_⟩
  · intro tasks tid r s h
    exact ⟨by simp [setTaskStatus, h], alookup_aupsert_self tid _ tasks⟩
  · intro tasks tid
    exact alookup_aupsert_self tid _ tasks
  · intro success s hs
    cases success <;> simp [backgroundStatusWrites] at hs <;> tauto

/-- Witness for C2: the unconditional-overwrite part applied to a completed
task receiving a "failed" write. -/
theorem C2_no_transition_guard_witness :
    setTaskStatus [("t", ⟨"completed", 100⟩)] "t" "failed"
      = some (aupsert "t" ⟨"failed", 100⟩ [("t", ⟨"completed", 100⟩)]) :=
  (C2_no_transition_guard.1 [("t", ⟨"completed", 100⟩)] "t"
    ⟨"completed", 100⟩ "failed" rfl).1

/-- C5 counterexample: with stored progress 95, writing 10 is accepted and
stored — not rejected, and the stored value does not stay unchanged. -/
theorem C5_lower_write_accepted_counterexample :
    setTaskProgress [("t", ⟨"processing", 95⟩)] "t" 10
      = some [("t", ⟨"processing", 10⟩)] ∧ (10 : ℕ) < 95 := by
  refine ⟨?_, by norm_num⟩
  simp [setTaskProgress, alookup, aupsert]

/-- C5 (amended): progressPercent is non-decreasing across the implemented
flow because the worker writes the fixed increasing schedule 0, 5, 30, 40,
50, 70, 85, 95, 100; but no write is ever rejected — the code has no
NonMonotonicProgress failure, and a write below the stored value is accepted
and stored. -/
theorem C5_progress_schedule_monotone :
    List.Chain' (· ≤ ·) (0 :: successProgressWrites) ∧
    (∀ (tasks : List (String × TaskRecord)) (tid : String) (r : TaskRecord)
        (p : ℕ), alookup tid tasks = some r →
      setTaskProgress tasks tid p
          = some (aupsert tid { r with progress := p } tasks) ∧
      alookup tid (aupsert tid { r with progress := p } tasks)
        = some { r with progress := p }) := by
  constructor
  · have hw : successProgressWrites = [5, 30, 40, 50, 70, 85, 95, 100] := rfl
    rw [hw]
    simp [List.chain'_cons]
  · intro tasks tid r p h
    exact ⟨by simp [setTaskProgress, h], alookup_aupsert_self tid _ tasks⟩

/-- Witness for C5: the unconditional-write part applied to a task whose
stored progress is 95 receiving the lower value 10. -/
theorem C5_progress_schedule_monotone_witness :
    setTaskProgress [("t", ⟨"processing", 95⟩)] "t" 10
      = some (aupsert "t" ⟨"processing", 10⟩ [("t", ⟨"processing", 95⟩)]) :=
  (C5_progress_schedule_monotone.2 [("t", ⟨"processing", 95⟩)] "t"
    ⟨"processing", 95⟩ 10 rfl).1

/-! ## Claim about the websocket handshake -/

theorem connect_active (ok : ℕ → Bool) (st : ConnState) (tid : String)
    (ws : ℕ) :
    ((connect ok st tid ws).1).active_connections
      = aupsert tid ws st.active_connections := by
  cases hl : alookup tid st.pending_updates with
  | none => simp [connect, hl]
  | some buf => simp [connect, hl]

theorem connect_all_ok_delivers (st : ConnState) (tid : String) (ws : ℕ) :
    (connect (fun _ => true) st tid ws).2 = bufferOf st tid := by
  cases hl : alookup tid st.pending_updates with
  | none => simp [connect, hl, bufferOf]
  | some buf => simp [connect, hl, bufferOf, replaySends_all (fun _ => true) (fun _ => rfl) buf 0]

/-- C10: connecting an observer for a task present in the task map, with all
sends succeeding, delivers the buffered replay first, then the
connection_established message, then exactly one synthetic snapshot derived
from the stored status: a completed message at progress 100 for status
completed, an error message for failed, a progress message at the stored
percentage for processing. A buffered terminal event is therefore delivered
twice on reconnection — once replayed, once synthesized. -/
theorem C10_handshake_order_and_snapshot
    (tasks : List (String × TaskRecord)) (st : ConnState) (task_id : String)
    (ws : ℕ) (r : TaskRecord) (hr : alookup task_id tasks = some r)
    (hs : r.status = "processing" ∨ r.status = "completed" ∨
      r.status = "failed") :
    (websocket_endpoint_init (fun _ => true) SendOutcome.delivered
        SendOutcome.delivered tasks st task_id ws).2
      = bufferOf st task_id ++ connEstablishedEvent :: statusSnapshot r ∧
    (r.status = "completed" →
      statusSnapshot r
        = [⟨EventKind.completed, some 100,
            "Batch processing completed successfully!"⟩]) ∧
    (r.status = "failed" →
      statusSnapshot r = [⟨EventKind.error, none, "failed"⟩]) ∧
    (r.status = "processing" →
      statusSnapshot r = [⟨EventKind.progress, some r.progress,
        "Processing in progress... " ++ toString r.progress ++ "%"⟩]) := by
  have hsnap : ∃ ev, statusSnapshot r = [ev] := by
    rcases hs with h | h | h
    · exact ⟨⟨EventKind.progress, some r.progress,
        "Processing in progress... " ++ toString r.progress ++ "%"⟩,
        by simp [statusSnapshot, h]⟩
    · exact ⟨⟨EventKind.completed, some 100,
        "Batch processing completed successfully!"⟩,
        by simp [statusSnapshot, h]⟩
    · exact ⟨⟨EventKind.error, none, "failed"⟩, by simp [statusSnapshot, h]⟩
  obtain ⟨ev, hev⟩ := hsnap
  have h2 : alookup task_id
      ((connect (fun _ => true) st task_id ws).1).active_connections
      = some ws := by
    rw [connect_active]
    exact alookup_aupsert_self task_id ws st.active_connections
  have hsend1 : send_progress_update SendOutcome.delivered
      (connect (fun _ => true) st task_id ws).1 task_id connEstablishedEvent
      = ((connect (fun _ => true) st task_id ws).1,
         [connEstablishedEvent]) := by
    simp [send_progress_update, h2]
  have hsend2 : send_progress_update SendOutcome.delivered
      (connect (fun _ => true) st task_id ws).1 task_id ev
      = ((connect (fun _ => true) st task_id ws).1, [ev]) := by
    simp [send_progress_update, h2]
  refine ⟨?_, ?_, ?_, ?_⟩
  · simp only [websocket_endpoint_init, hr, hev, hsend1, hsend2,
      connect_all_ok_delivers]
    simp
  · intro h
    simp [statusSnapshot, h]
  · intro h
    simp [statusSnapshot, h]
  · intro h
    simp [statusSnapshot, h]

/-- Witness for C10: reconnecting to a completed task whose pending buffer
still holds the completed event delivers that terminal event twice, around
the connection_established message. -/
theorem C10_handshake_order_and_snapshot_witness :
    (websocket_endpoint_init (fun _ => true) SendOutcome.delivered
        SendOutcome.delivered [("t", ⟨"completed", 37⟩)]
        ⟨[], [("t", [⟨EventKind.completed, some 100,
          "Batch processing completed successfully!"⟩])]⟩ "t" 0).2
      = [⟨EventKind.completed, some 100,
          "Batch processing completed successfully!"⟩,
         connEstablishedEvent,
         ⟨EventKind.completed, some 100,
          "Batch processing completed successfully!"⟩] := by
  have h := C10_handshake_order_and_snapshot [("t", ⟨"completed", 37⟩)]
      ⟨[], [("t", [⟨EventKind.completed, some 100,
        "Batch processing completed successfully!"⟩])]⟩ "t" 0
      ⟨"completed", 37⟩ rfl (Or.inr (Or.inl rfl))
  rw [h.1, h.2.1 rfl]
  rfl
